import Mathlib

/-!
Verification development for the video frame-extraction pipeline of this
repository (SageMaker Processing workshop, `sm_processing`).

The repository source contains the launching notebook
`2. Frame Extract Custom.ipynb`; the worker script `getframes.py` it submits is
not part of the source tree, so the pipeline components (shard assignor, frame
sampler, video processor, worker runner, publish step) are modelled from the
specification and checked for internal consistency, while the notebook cells
(configuration check, processor construction, job launch) are embedded from the
source directly.

Machine reals (video timestamps, sampling rates) are modelled as rationals;
object storage is a key/value map; the lazy decoded-frame stream of one video
is a finite list of decode events.
-/

namespace FrameExtract

/-! Data model -/

/-- Identifies one input video: storage key, byte size, and the identifier used
to name its output frames deterministically. -/
structure VideoRef where
  key : String
  byteSize : Nat
  id : String
deriving DecidableEq

/-- Error taxonomy of the pipeline. -/
inductive PipelineError where
  | configurationError
  | unreadableVideoError
  | decodeError
  | publishError
deriving DecidableEq

/-- Sampling policy: rate 0 retains every decoded frame, rate R > 0 retains
frames at boundaries spaced 1/R seconds apart. -/
structure SamplingPolicy where
  rate : ℚ
deriving DecidableEq

/-- One decoded frame as produced by the Video Decoder: raw frame index in the
container, timestamp in seconds, raw image bytes. -/
structure DecodedFrame where
  rawIndex : Nat
  timestamp : ℚ
  image : List Nat
deriving DecidableEq

/-- One event of a video's decode stream: either a well-formed frame or a
malformed payload that surfaces as a `DecodeError`. -/
inductive DecodeEvent where
  | frame : DecodedFrame → DecodeEvent
  | corrupt : DecodeEvent
deriving DecidableEq

/-- Modelled from the spec: one input video as seen by the Video Processor.
`stream = none` models a container that cannot be opened at all
(`UnreadableVideoError`); `stream = some events` is the finite decode stream. -/
structure VideoSource where
  ref : VideoRef
  stream : Option (List DecodeEvent)

/-- One frame staged for publication, keyed by (video identifier, output frame
index). -/
structure StagedFrame where
  videoId : String
  frameIndex : Nat
  timestamp : ℚ
  image : List Nat
deriving DecidableEq

/-- Per-video outcome. -/
inductive Outcome where
  | success
  | failed : PipelineError → Outcome
deriving DecidableEq

/-- Result of processing one video. -/
structure ProcessResult where
  videoRef : VideoRef
  framesWritten : Nat
  outcome : Outcome
deriving DecidableEq

/-- Per-worker run report counters. -/
structure RunReport where
  attempted : Nat
  succeeded : Nat
  failedCount : Nat
  framesWritten : Nat
deriving DecidableEq

/-! Notebook launcher (embedded from `2. Frame Extract Custom.ipynb`) -/

/-- Environment visible to the notebook: the restored `%store` variables, the
working directory (`os.path.abspath('')` in cell-5), the directory predicate
(`os.path.isdir`), and the account/region used to build the image URI. -/
structure NotebookEnv where
  bucketName : String
  inputPrefixVal : String
  outputPrefixVal : String
  cwd : String
  isDir : String → Bool
  accountId : String
  region : String

/-- Error raised by the notebook setup cell. -/
inductive SetupError where
  | runtimeError
deriving DecidableEq

/-- Path tested by cell-5: `f"{os.path.abspath('')}/{INPUT_PREFIX}"`. -/
def inputDirPath (env : NotebookEnv) : String :=
  env.cwd ++ "/" ++ env.inputPrefixVal

/-- Cell-5 of the notebook: raise `RuntimeError` unless the local input
directory exists. -/
def configReloadStep (env : NotebookEnv) : Except SetupError Unit :=
  if !(env.isDir (inputDirPath env)) then
    Except.error SetupError.runtimeError
  else
    Except.ok ()

/-- Configuration of the launched processing job, mirroring the
`ScriptProcessor(...)` construction of cell-23 and the `processor.run(...)`
call of cell-24. -/
structure LaunchedJob where
  imageUri : String
  command : List String
  instanceType : String
  volumeSizeInGb : Nat
  instanceCount : Nat
  codeScript : String
  inputSource : String
  inputDestination : String
  s3DataDistributionType : String
  outputName : String
  outputSource : String
  outputDestination : String
  arguments : List String
deriving DecidableEq

/-- Job value fixed by cells 21, 23 and 24 of the notebook. -/
def notebookJob (env : NotebookEnv) : LaunchedJob where
  imageUri := env.accountId ++ ".dkr.ecr." ++ env.region ++ ".amazonaws.com/smskcv:latest"
  command := ["python3", "-v"]
  instanceType := "ml.t3.medium"
  volumeSizeInGb := 5
  instanceCount := 2
  codeScript := "getframes.py"
  inputSource := "s3://" ++ env.bucketName ++ "/" ++ env.inputPrefixVal
  inputDestination := "/opt/ml/processing/input/videos"
  s3DataDistributionType := "ShardedByS3Key"
  outputName := "frames"
  outputSource := "/opt/ml/processing/frames"
  outputDestination := "s3://" ++ env.bucketName ++ "/" ++ env.outputPrefixVal
  arguments := ["--frames-per-second", "0"]

/-- Notebook flow from the setup cell to the job launch: cell-5 runs first and
an exception there prevents every later step; otherwise the job of cells 23/24
is submitted. -/
def launchSetup (env : NotebookEnv) : Except SetupError LaunchedJob :=
  match configReloadStep env with
  | Except.error e => Except.error e
  | Except.ok _ => Except.ok (notebookJob env)

/-! Shard Assignor

Modelled from the spec: sort the full listing by storage key, partition by
index modulo `shardCount`; `ConfigurationError` when
`workerIndex ≥ shardCount`. -/

/-- Canonical ordering of the listing: stable sort by storage key. -/
def sortByKey {α : Type} (key : α → String) (l : List α) : List α :=
  l.mergeSort (fun a b => decide (key a ≤ key b))

/-- Shard of worker `workerIndex` out of `shardCount`: the elements of the
canonically sorted listing whose position is congruent to `workerIndex` modulo
`shardCount`. -/
def shardListBy {α : Type} (key : α → String) (all : List α)
    (workerIndex shardCount : Nat) : List α :=
  (((sortByKey key all).enum.filter
      (fun p => p.1 % shardCount = workerIndex)).map Prod.snd)

/-- Modelled from the spec: the Shard Assignor contract
`assign(allVideos, workerIndex, shardCount)`. -/
def assignBy {α : Type} (key : α → String) (all : List α)
    (workerIndex shardCount : Nat) : Except PipelineError (List α) :=
  if shardCount ≤ workerIndex then
    Except.error PipelineError.configurationError
  else
    Except.ok (shardListBy key all workerIndex shardCount)

/-- Shard assignment on video references (sorted by their storage key). -/
def assign (allVideos : List VideoRef) (workerIndex shardCount : Nat) :
    Except PipelineError (List VideoRef) :=
  assignBy VideoRef.key allVideos workerIndex shardCount

/-! Frame Sampler

Modelled from the spec: rate 0 retains every decoded frame; rate R > 0 retains
the first decoded frame at or after each boundary `t = i / R` for increasing
integer `i`, dropping decoded frames between boundaries. -/

/-- Boundary index of a frame: the last boundary `i/rate` at or before its
timestamp. -/
def frameFloor (rate : ℚ) (f : DecodedFrame) : ℤ :=
  ⌊f.timestamp * rate⌋

/-- Rate-positive sampling pass: `i` is the index of the next boundary `i/rate`
still waiting for a frame; a frame at or after that boundary is retained and
the boundary advances past the retained frame's timestamp. -/
def sampleFrom (rate : ℚ) : List DecodedFrame → ℤ → List DecodedFrame
  | [], _ => []
  | f :: rest, i =>
    if (i : ℚ) / rate ≤ f.timestamp then
      f :: sampleFrom rate rest (⌊f.timestamp * rate⌋ + 1)
    else
      sampleFrom rate rest i

/-- Retained sub-sequence of the decoded frames under a policy. -/
def retainedFrames (policy : SamplingPolicy) (frames : List DecodedFrame) :
    List DecodedFrame :=
  if policy.rate = 0 then frames else sampleFrom policy.rate frames 0

/-- Modelled from the spec: `select(frameStream, policy)`, the retained frames
re-indexed with output indices `0..k-1`. -/
def select (frames : List DecodedFrame) (policy : SamplingPolicy) :
    List (Nat × DecodedFrame) :=
  (retainedFrames policy frames).enum

/-! Video Processor (modelled from the spec) -/

/-- Frames successfully decoded before the stream ends or the first malformed
payload, together with whether a `DecodeError` occurred. -/
def decodedUntilError : List DecodeEvent → List DecodedFrame × Bool
  | [] => ([], false)
  | DecodeEvent.frame f :: rest =>
    (f :: (decodedUntilError rest).1, (decodedUntilError rest).2)
  | DecodeEvent.corrupt :: _ => ([], true)

/-- Staged files for the selected frames of one video, keyed by
(video identifier, output frame index). -/
def stageFrames (vid : String) (sel : List (Nat × DecodedFrame)) :
    List StagedFrame :=
  sel.map (fun p => { videoId := vid, frameIndex := p.1,
                      timestamp := p.2.timestamp, image := p.2.image })

/-- Modelled from the spec: `process(videoRef, policy, stagingLocation)`.
Open failure yields `Failed(UnreadableVideoError)` and zero frames; a
mid-stream `DecodeError` keeps the already staged frames and yields
`Failed(DecodeError)` with the partial count; otherwise `Success`. -/
def process (video : VideoSource) (policy : SamplingPolicy)
    (staging : List StagedFrame) : ProcessResult × List StagedFrame :=
  match video.stream with
  | none =>
    ({ videoRef := video.ref, framesWritten := 0,
       outcome := Outcome.failed PipelineError.unreadableVideoError }, staging)
  | some events =>
    let sel := select (decodedUntilError events).1 policy
    ({ videoRef := video.ref, framesWritten := sel.length,
       outcome := if (decodedUntilError events).2 then
                    Outcome.failed PipelineError.decodeError
                  else Outcome.success },
     staging ++ stageFrames video.ref.id sel)

/-! Publish step (modelled from the spec) -/

/-- Object Storage: a map from keys to object bytes. -/
def Storage : Type := String → Option (List Nat)

/-- Overwrite-safe put of one object. -/
def putObject (s : Storage) (key : String) (bytes : List Nat) : Storage :=
  fun k => if k = key then some bytes else s k

/-- Output key of a staged frame under the durable output location: derived
from the video identifier and frame index only, never from the worker. -/
def outputKey (outLoc : String) (f : StagedFrame) : String :=
  outLoc ++ "/" ++ f.videoId ++ "/frame-" ++ toString f.frameIndex ++ ".jpg"

/-- Modelled from the spec: publish the staged output to Object Storage, one
idempotent put per staged file. -/
def publish (outLoc : String) (staged : List StagedFrame) (s : Storage) :
    Storage :=
  staged.foldl (fun st f => putObject st (outputKey outLoc f) f.image) s

/-! Worker Runner (modelled from the spec) -/

/-- Launch configuration handed to one worker process. -/
structure WorkerConfig where
  workerIndex : Nat
  shardCount : Nat
  policy : SamplingPolicy

/-- Final state of a worker run. -/
inductive RunOutcome where
  | success
  | partialSuccess
  | fatal
deriving DecidableEq

/-- Exit-code convention exposed to the Job Launcher. -/
def exitCode : RunOutcome → Nat
  | RunOutcome.success => 0
  | RunOutcome.partialSuccess => 1
  | RunOutcome.fatal => 2

/-- Sequential per-video loop over the shard: every video is attempted, results
are accumulated in shard order, the staging area is threaded through. -/
def processShard (policy : SamplingPolicy) (staging : List StagedFrame) :
    List VideoSource → List ProcessResult × List StagedFrame
  | [] => ([], staging)
  | v :: rest =>
    (( process v policy staging).1 ::
        (processShard policy (process v policy staging).2 rest).1,
     (processShard policy (process v policy staging).2 rest).2)

/-- Run report compiled from the per-video results. -/
def mkReport (results : List ProcessResult) : RunReport where
  attempted := results.length
  succeeded := results.countP (fun r => decide (r.outcome = Outcome.success))
  failedCount := results.countP (fun r => decide (r.outcome ≠ Outcome.success))
  framesWritten := (results.map ProcessResult.framesWritten).sum

/-- Report of a run that never reached the per-video loop. -/
def emptyReport : RunReport :=
  { attempted := 0, succeeded := 0, failedCount := 0, framesWritten := 0 }

/-- Modelled from the spec: the Worker Runner state machine collapsed to its
observable result. `publishOk` abstracts whether the final publish succeeded
within its bounded retries. Fatal on empty listing or invalid configuration;
per-video failures only downgrade `Done(success)` to `Done(partial)`; publish
failure after the loop is fatal. -/
def runWorker (cfg : WorkerConfig) (listing : List VideoSource)
    (publishOk : Bool) : RunOutcome × RunReport × List StagedFrame :=
  if listing.isEmpty then
    (RunOutcome.fatal, emptyReport, [])
  else
    match assignBy (fun v => v.ref.key) listing cfg.workerIndex cfg.shardCount with
    | Except.error _ => (RunOutcome.fatal, emptyReport, [])
    | Except.ok shard =>
      if publishOk then
        if (mkReport (processShard cfg.policy [] shard).1).failedCount = 0 then
          (RunOutcome.success, mkReport (processShard cfg.policy [] shard).1,
           (processShard cfg.policy [] shard).2)
        else
          (RunOutcome.partialSuccess, mkReport (processShard cfg.policy [] shard).1,
           (processShard cfg.policy [] shard).2)
      else
        (RunOutcome.fatal, mkReport (processShard cfg.policy [] shard).1,
         (processShard cfg.policy [] shard).2)

/-- Synthetic evenly spaced decode sequence: `n` frames at `fps` frames per
second, frame `j` at timestamp `j / fps` seconds. -/
def syntheticFrames (n fps : Nat) : List DecodedFrame :=
  (List.range n).map
    (fun j => { rawIndex := j, timestamp := (j : ℚ) / (fps : ℚ), image := [] })

/-- Concrete environment in which every directory exists, used to exercise the
launch path. -/
def envAllDirs : NotebookEnv where
  bucketName := "bucket"
  inputPrefixVal := "videos-in"
  outputPrefixVal := "frames-out"
  cwd := "/home/user"
  isDir := fun _ => true
  accountId := "123456789012"
  region := "us-east-1"

/-- Concrete video whose decode stream fails after one good frame. -/
def corruptVideo : VideoSource where
  ref := { key := "vid-a", byteSize := 100, id := "a" }
  stream := some [DecodeEvent.frame ⟨0, 0, []⟩, DecodeEvent.corrupt]

/-! Theorems -/

theorem process_videoRef (video : VideoSource) (policy : SamplingPolicy)
    (staging : List StagedFrame) :
    (process video policy staging).1.videoRef = video.ref := by
  cases hs : video.stream <;> simp [process, hs]

theorem processShard_results_length (policy : SamplingPolicy)
    (shard : List VideoSource) :
    ∀ staging : List StagedFrame,
      (processShard policy staging shard).1.length = shard.length := by
  induction shard with
  | nil => intro s; rfl
  | cons v rest ih =>
    intro s
    simp only [processShard, List.length_cons]
    rw [ih]

theorem processShard_results_videos (policy : SamplingPolicy)
    (shard : List VideoSource) :
    ∀ staging : List StagedFrame,
      (processShard policy staging shard).1.map ProcessResult.videoRef
        = shard.map VideoSource.ref := by
  induction shard with
  | nil => intro s; rfl
  | cons v rest ih =>
    intro s
    simp only [processShard, List.map_cons]
    rw [ih, process_videoRef]

theorem mkReport_failedCount_zero (results : List ProcessResult) :
    (mkReport results).failedCount = 0 ↔
      ∀ pr ∈ results, pr.outcome = Outcome.success := by
  simp [mkReport, List.countP_eq_zero]

theorem runWorker_fst_eq (cfg : WorkerConfig) (listing : List VideoSource)
    (publishOk : Bool) :
    (runWorker cfg listing publishOk).1 =
      if listing.isEmpty then RunOutcome.fatal
      else if cfg.shardCount ≤ cfg.workerIndex then RunOutcome.fatal
      else if publishOk then
        if (mkReport (processShard cfg.policy []
              (shardListBy (fun v => v.ref.key) listing cfg.workerIndex
                cfg.shardCount)).1).failedCount = 0
        then RunOutcome.success
        else RunOutcome.partialSuccess
      else RunOutcome.fatal := by
  unfold runWorker assignBy
  by_cases hl : listing.isEmpty <;>
    by_cases hcfg : cfg.shardCount ≤ cfg.workerIndex <;>
      cases publishOk <;> simp [hl, hcfg, apply_ite Prod.fst]

theorem runWorker_fatal_iff (cfg : WorkerConfig) (listing : List VideoSource)
    (publishOk : Bool) :
    (runWorker cfg listing publishOk).1 = RunOutcome.fatal ↔
      (listing = [] ∨ cfg.shardCount ≤ cfg.workerIndex ∨ publishOk = false) := by
  rw [runWorker_fst_eq]
  split_ifs with h1 h2 h3 h4 <;> simp_all [List.isEmpty_iff]

theorem runWorker_success_iff (cfg : WorkerConfig) (listing : List VideoSource)
    (publishOk : Bool) :
    (runWorker cfg listing publishOk).1 = RunOutcome.success ↔
      (listing ≠ [] ∧ cfg.workerIndex < cfg.shardCount ∧ publishOk = true ∧
        ∀ pr ∈ (processShard cfg.policy []
            (shardListBy (fun v => v.ref.key) listing cfg.workerIndex
              cfg.shardCount)).1, pr.outcome = Outcome.success) := by
  rw [runWorker_fst_eq]
  split_ifs with h1 h2 h3 h4 <;>
    simp_all [List.isEmpty_iff, Nat.lt_iff_add_one_le, Nat.not_le,
      mkReport_failedCount_zero]

theorem runWorker_partial_iff (cfg : WorkerConfig) (listing : List VideoSource)
    (publishOk : Bool) :
    (runWorker cfg listing publishOk).1 = RunOutcome.partialSuccess ↔
      (listing ≠ [] ∧ cfg.workerIndex < cfg.shardCount ∧ publishOk = true ∧
        ¬ ∀ pr ∈ (processShard cfg.policy []
            (shardListBy (fun v => v.ref.key) listing cfg.workerIndex
              cfg.shardCount)).1, pr.outcome = Outcome.success) := by
  rw [runWorker_fst_eq]
  split_ifs with h1 h2 h3 h4 <;>
    simp_all [List.isEmpty_iff, Nat.not_le, mkReport_failedCount_zero]

/-- C9: the notebook's configuration-reload step raises `RuntimeError` — and
none of the build or job-launch steps runs — exactly when the local directory
`<current dir>/INPUT_PREFIX` does not exist; when it exists the step completes
and the launch proceeds. -/
theorem setup_directory_check (env : NotebookEnv) :
    (configReloadStep env = Except.error SetupError.runtimeError ↔
        env.isDir (inputDirPath env) = false) ∧
    (configReloadStep env = Except.ok () ↔
        env.isDir (inputDirPath env) = true) ∧
    ((∃ job, launchSetup env = Except.ok job) ↔
        env.isDir (inputDirPath env) = true) ∧
    (launchSetup env = Except.error SetupError.runtimeError ↔
        env.isDir (inputDirPath env) = false) := by
  cases h : env.isDir (inputDirPath env) <;>
    simp [configReloadStep, launchSetup, h]

/-- C10: every processing job launched from this notebook runs with exactly 2
worker instances and passes the sampling-rate argument
`--frames-per-second 0`; no other fleet size or sampling rate is reachable
from this entry point. -/
theorem launch_fixed_fleet_and_rate (env : NotebookEnv) (job : LaunchedJob)
    (h : launchSetup env = Except.ok job) :
    job.instanceCount = 2 ∧ job.arguments = ["--frames-per-second", "0"] := by
  unfold launchSetup at h
  cases hc : configReloadStep env with
  | error e => rw [hc] at h; exact Except.noConfusion h
  | ok u =>
    rw [hc] at h
    injection h with hj
    rw [← hj]
    exact ⟨rfl, rfl⟩

/-- Witness for C10 at a concrete environment. -/
theorem launch_fixed_fleet_and_rate_witness :
    launchSetup envAllDirs = Except.ok (notebookJob envAllDirs) ∧
    ((notebookJob envAllDirs).instanceCount = 2 ∧
      (notebookJob envAllDirs).arguments = ["--frames-per-second", "0"]) :=
  ⟨rfl, launch_fixed_fleet_and_rate envAllDirs (notebookJob envAllDirs) rfl⟩

/-- C7: with `workerIndex ≥ shardCount > 0` the assignor fails with
`ConfigurationError` and returns no shard. -/
theorem assign_invalid_worker_error (allVideos : List VideoRef)
    (workerIndex shardCount : Nat) (_hsc : 0 < shardCount)
    (hge : shardCount ≤ workerIndex) :
    assign allVideos workerIndex shardCount
        = Except.error PipelineError.configurationError ∧
    ∀ s, assign allVideos workerIndex shardCount ≠ Except.ok s := by
  unfold assign assignBy
  rw [if_pos hge]
  exact ⟨rfl, fun s h => Except.noConfusion h⟩

/-- Witness for C7 at a concrete input. -/
theorem assign_invalid_worker_error_witness :
    0 < 2 ∧ 2 ≤ 3 ∧
    (assign [⟨"k", 1, "a"⟩] 3 2
        = Except.error PipelineError.configurationError ∧
      ∀ s, assign [⟨"k", 1, "a"⟩] 3 2 ≠ Except.ok s) :=
  ⟨by decide, by decide,
    assign_invalid_worker_error [⟨"k", 1, "a"⟩] 3 2 (by decide) (by decide)⟩

/-- C2: sampling with rate 0 returns exactly the decoded frames, in decoder
order, re-indexed with output indices `0..k-1`. -/
theorem sampler_rate_zero_identity (frames : List DecodedFrame)
    (policy : SamplingPolicy) (h0 : policy.rate = 0) :
    (select frames policy).map Prod.snd = frames ∧
    (select frames policy).map Prod.fst = List.range frames.length ∧
    (select frames policy).length = frames.length := by
  unfold select retainedFrames
  rw [if_pos h0]
  exact ⟨List.enum_map_snd frames, List.enum_map_fst frames, List.enum_length⟩

/-- Witness for C2 at a concrete frame list. -/
theorem sampler_rate_zero_identity_witness :
    (SamplingPolicy.mk 0).rate = 0 ∧
    ((select [⟨0, 0, []⟩, ⟨1, 1, []⟩] (SamplingPolicy.mk 0)).map Prod.snd
        = [⟨0, 0, []⟩, ⟨1, 1, []⟩] ∧
      (select [⟨0, 0, []⟩, ⟨1, 1, []⟩] (SamplingPolicy.mk 0)).map Prod.fst
        = List.range ([⟨0, 0, []⟩, ⟨1, 1, []⟩] : List DecodedFrame).length ∧
      (select [⟨0, 0, []⟩, ⟨1, 1, []⟩] (SamplingPolicy.mk 0)).length
        = ([⟨0, 0, []⟩, ⟨1, 1, []⟩] : List DecodedFrame).length) :=
  ⟨rfl, sampler_rate_zero_identity [⟨0, 0, []⟩, ⟨1, 1, []⟩]
    (SamplingPolicy.mk 0) rfl⟩

theorem publish_foldl_apply (outLoc : String) (l : List StagedFrame) :
    ∀ (s : Storage) (k : String),
      publish outLoc l s k
        = match l.reverse.find? (fun f => decide (outputKey outLoc f = k)) with
          | some f => some f.image
          | none => s k := by
  induction l with
  | nil => intro s k; rfl
  | cons f l ih =>
    intro s k
    have hstep : publish outLoc (f :: l) s
        = publish outLoc l (putObject s (outputKey outLoc f) f.image) := rfl
    rw [hstep, ih, List.reverse_cons, List.find?_append]
    cases hfind : l.reverse.find? (fun g => decide (outputKey outLoc g = k)) with
    | some g => simp [Option.or]
    | none =>
      simp only [Option.or]
      by_cases hk : outputKey outLoc f = k
      · simp [List.find?, hk, putObject]
      · have hk' : ¬ k = outputKey outLoc f := fun h => hk h.symm
        simp [List.find?, hk, putObject, hk']

/-- C5: publishing the same staged output twice to the same output location
leaves Object Storage in the same observable state as publishing once. -/
theorem publish_idempotent (outLoc : String) (staged : List StagedFrame)
    (s : Storage) :
    publish outLoc staged (publish outLoc staged s)
      = publish outLoc staged s := by
  funext k
  rw [publish_foldl_apply, publish_foldl_apply]
  cases hfind : staged.reverse.find? (fun f => decide (outputKey outLoc f = k)) with
  | some f => rfl
  | none => rfl

/-- C6: the worker exit code is exactly determined by the final Worker Runner
state: 0 iff `Done(success)` (every video succeeded and publish succeeded),
1 iff `Done(partial)` (publish succeeded, some video failed), 2 iff `Fatal`
(invalid configuration, empty listing, or publish failure). -/
theorem exit_code_state_correspondence (cfg : WorkerConfig)
    (listing : List VideoSource) (publishOk : Bool) :
    (exitCode (runWorker cfg listing publishOk).1 = 0 ↔
        (runWorker cfg listing publishOk).1 = RunOutcome.success) ∧
    (exitCode (runWorker cfg listing publishOk).1 = 1 ↔
        (runWorker cfg listing publishOk).1 = RunOutcome.partialSuccess) ∧
    (exitCode (runWorker cfg listing publishOk).1 = 2 ↔
        (runWorker cfg listing publishOk).1 = RunOutcome.fatal) ∧
    ((runWorker cfg listing publishOk).1 = RunOutcome.success ↔
        (listing ≠ [] ∧ cfg.workerIndex < cfg.shardCount ∧ publishOk = true ∧
          ∀ pr ∈ (processShard cfg.policy []
              (shardListBy (fun v => v.ref.key) listing cfg.workerIndex
                cfg.shardCount)).1, pr.outcome = Outcome.success)) ∧
    ((runWorker cfg listing publishOk).1 = RunOutcome.partialSuccess ↔
        (listing ≠ [] ∧ cfg.workerIndex < cfg.shardCount ∧ publishOk = true ∧
          ¬ ∀ pr ∈ (processShard cfg.policy []
              (shardListBy (fun v => v.ref.key) listing cfg.workerIndex
                cfg.shardCount)).1, pr.outcome = Outcome.success)) ∧
    ((runWorker cfg listing publishOk).1 = RunOutcome.fatal ↔
        (listing = [] ∨ cfg.shardCount ≤ cfg.workerIndex ∨
          publishOk = false)) := by
  refine ⟨?_, ?_, ?_, runWorker_success_iff cfg listing publishOk,
    runWorker_partial_iff cfg listing publishOk,
    runWorker_fatal_iff cfg listing publishOk⟩ <;>
    cases h : (runWorker cfg listing publishOk).1 <;> simp [exitCode]

/-- C4: a video whose decode stream fails after the retained frames have been
staged yields `Failed(DecodeError)` with `framesWritten` equal to the number
of staged frames, the staged frames are kept, every video of a shard
containing it is still attempted, and a per-video failure alone never makes
the run `Fatal`. -/
theorem decode_error_partial_outcome (video : VideoSource)
    (events : List DecodeEvent) (policy : SamplingPolicy)
    (staging : List StagedFrame)
    (hstream : video.stream = some events)
    (herr : (decodedUntilError events).2 = true) :
    (process video policy staging).1.outcome
        = Outcome.failed PipelineError.decodeError ∧
    (process video policy staging).1.framesWritten
        = (select (decodedUntilError events).1 policy).length ∧
    (process video policy staging).2
        = staging ++
            stageFrames video.ref.id (select (decodedUntilError events).1 policy) ∧
    (∀ pre post : List VideoSource,
        (processShard policy staging (pre ++ video :: post)).1.map
            ProcessResult.videoRef
          = (pre ++ video :: post).map VideoSource.ref) ∧
    (∀ cfg : WorkerConfig, ∀ listing : List VideoSource,
        listing ≠ [] → cfg.workerIndex < cfg.shardCount →
        (runWorker cfg listing true).1 ≠ RunOutcome.fatal) := by
  refine ⟨?_, ?_, ?_,
    fun pre post => processShard_results_videos policy (pre ++ video :: post) staging,
    fun cfg listing hne hlt hfatal => ?_⟩
  · simp [process, hstream, herr]
  · simp [process, hstream]
  · simp [process, hstream]
  · rcases (runWorker_fatal_iff cfg listing true).mp hfatal with h | h | h
    · exact hne h
    · exact absurd hlt (Nat.not_lt.mpr h)
    · exact Bool.noConfusion h

/-- Witness for C4 at a concrete corrupt video. -/
theorem decode_error_partial_outcome_witness :
    corruptVideo.stream
        = some [DecodeEvent.frame ⟨0, 0, []⟩, DecodeEvent.corrupt] ∧
    (decodedUntilError [DecodeEvent.frame ⟨0, 0, []⟩, DecodeEvent.corrupt]).2
        = true ∧
    (process corruptVideo ⟨0⟩ []).1.outcome
        = Outcome.failed PipelineError.decodeError :=
  ⟨rfl, rfl,
    (decode_error_partial_outcome corruptVideo
      [DecodeEvent.frame ⟨0, 0, []⟩, DecodeEvent.corrupt] ⟨0⟩ [] rfl rfl).1⟩

theorem stageFrames_map_frameIndex (vid : String)
    (sel : List (Nat × DecodedFrame)) :
    (stageFrames vid sel).map StagedFrame.frameIndex = sel.map Prod.fst := by
  simp [stageFrames, List.map_map]

/-- C8: for every processed video and every sampling policy, the output frame
indices newly staged by `process` are exactly `0..k-1` for the `k` retained
frames: strictly increasing, starting at 0, gap-free, regardless of which
decoded frames were dropped. -/
theorem output_frame_index_contiguous (video : VideoSource)
    (policy : SamplingPolicy) (staging : List StagedFrame) :
    ((process video policy staging).2.drop staging.length).map
        StagedFrame.frameIndex
      = List.range (process video policy staging).1.framesWritten := by
  cases hs : video.stream with
  | none => simp [process, hs]
  | some events =>
    simp only [process, hs]
    rw [List.drop_left, stageFrames_map_frameIndex]
    unfold select
    rw [List.enum_map_fst, List.enum_length]

theorem succ_div_mod (sc n : Nat) (hsc : 0 < sc) :
    ((n + 1) / sc = n / sc + (if n % sc + 1 = sc then 1 else 0)) ∧
    ((n + 1) % sc = if n % sc + 1 = sc then 0 else n % sc + 1) := by
  have hmod : n % sc < sc := Nat.mod_lt n hsc
  have hdm : sc * (n / sc) + n % sc = n := Nat.div_add_mod n sc
  by_cases hc : n % sc + 1 = sc
  · have hn1 : n + 1 = sc * (n / sc + 1) := by
      rw [Nat.mul_add, Nat.mul_one]
      omega
    constructor
    · rw [if_pos hc, hn1, Nat.mul_div_cancel_left _ hsc]
    · rw [if_pos hc, hn1, Nat.mul_mod_right]
  · have hlt : n % sc + 1 < sc := by omega
    have hn1 : n + 1 = sc * (n / sc) + (n % sc + 1) := by omega
    constructor
    · rw [if_neg hc, hn1, Nat.mul_add_div hsc, Nat.div_eq_of_lt hlt,
        Nat.add_zero]
    · rw [if_neg hc, hn1, Nat.mul_add_mod, Nat.mod_eq_of_lt hlt]

theorem range_mod_filter_length (sc w : Nat) (hw : w < sc) :
    ∀ n : Nat, ((List.range n).filter (fun i => decide (i % sc = w))).length
      = n / sc + (if w < n % sc then 1 else 0) := by
  have hsc : 0 < sc := Nat.lt_of_le_of_lt (Nat.zero_le w) hw
  intro n
  induction n with
  | zero => simp
  | succ n ih =>
    rw [List.range_succ, List.filter_append, List.length_append, ih]
    have hmod : n % sc < sc := Nat.mod_lt n hsc
    have h1 := (succ_div_mod sc n hsc).1
    have h2 := (succ_div_mod sc n hsc).2
    by_cases hc : n % sc = w <;>
      simp [hc] <;> split_ifs at h1 h2 ⊢ <;> omega

theorem filter_enum_mod_length {α : Type} (sc w : Nat) (l : List α) :
    (l.enum.filter (fun p => decide (p.1 % sc = w))).length
      = ((List.range l.length).filter (fun i => decide (i % sc = w))).length := by
  have h1 : (List.range l.length).filter (fun i => decide (i % sc = w))
      = (l.enum.map Prod.fst).filter (fun i => decide (i % sc = w)) := by
    rw [List.enum_map_fst]
  have h2 : ((fun i => decide (i % sc = w)) ∘ (Prod.fst : Nat × α → Nat))
      = fun p : Nat × α => decide (p.1 % sc = w) := rfl
  rw [h1, List.filter_map, List.length_map, h2]

theorem shardListBy_length {α : Type} (key : α → String) (all : List α)
    (w sc : Nat) (hw : w < sc) :
    (shardListBy key all w sc).length
      = all.length / sc + (if w < all.length % sc then 1 else 0) := by
  unfold shardListBy
  rw [List.length_map, filter_enum_mod_length sc w (sortByKey key all)]
  have hlen : (sortByKey key all).length = all.length :=
    (List.mergeSort_perm all _).length_eq
  rw [hlen, range_mod_filter_length sc w hw]

theorem enumFrom_mod_count_sum {α : Type} [DecidableEq α] (sc : Nat)
    (hsc : 0 < sc) (v : α) :
    ∀ (l : List α) (i : Nat),
      (∑ w ∈ Finset.range sc,
        (((l.enumFrom i).filter (fun p => decide (p.1 % sc = w))).map
            Prod.snd).count v)
        = l.count v := by
  intro l
  induction l with
  | nil => intro i; simp
  | cons a l ih =>
    intro i
    have hstep : (a :: l).enumFrom i = (i, a) :: l.enumFrom (i + 1) := rfl
    have hsplit : ∀ w, (((i, a) :: l.enumFrom (i + 1)).filter
          (fun p => decide (p.1 % sc = w))).map Prod.snd
        = (if i % sc = w then [a] else []) ++
            ((l.enumFrom (i + 1)).filter
              (fun p => decide (p.1 % sc = w))).map Prod.snd := by
      intro w
      by_cases hc : i % sc = w <;> simp [List.filter_cons, hc]
    simp only [hstep, hsplit, List.count_append, Finset.sum_add_distrib, ih]
    have hmem : i % sc ∈ Finset.range sc :=
      Finset.mem_range.mpr (Nat.mod_lt i hsc)
    have hsum : (∑ w ∈ Finset.range sc,
        ((if i % sc = w then [a] else []) : List α).count v)
        = ([a] : List α).count v := by
      rw [Finset.sum_congr rfl
        (fun w _ => apply_ite (List.count v) (i % sc = w) [a] [])]
      simp only [List.count_nil]
      rw [Finset.sum_ite_eq (Finset.range sc) (i % sc)
        (fun _ => ([a] : List α).count v), if_pos hmem]
    rw [hsum]
    simp [List.count_cons]
    omega

theorem shardListBy_count_sum {α : Type} [DecidableEq α] (key : α → String)
    (all : List α) (sc : Nat) (hsc : 0 < sc) (v : α) :
    (∑ w ∈ Finset.range sc, (shardListBy key all w sc).count v)
      = all.count v := by
  unfold shardListBy
  have henum : (sortByKey key all).enum = (sortByKey key all).enumFrom 0 := rfl
  simp only [henum]
  rw [enumFrom_mod_count_sum sc hsc v (sortByKey key all) 0]
  exact (List.mergeSort_perm all _).count_eq v

/-- C1: for `shardCount > 0` the shards computed by `assign` for the worker
indices `0..shardCount-1` partition the input listing: every video lands in
exactly one shard (counted with multiplicity across the shards), and any two
shard sizes differ by at most one. -/
theorem shard_assignment_partition (allVideos : List VideoRef) (sc : Nat)
    (hsc : 0 < sc) :
    (∀ w, w < sc →
      assign allVideos w sc
        = Except.ok (shardListBy VideoRef.key allVideos w sc)) ∧
    (∀ v : VideoRef,
      (∑ w ∈ Finset.range sc,
          (shardListBy VideoRef.key allVideos w sc).count v)
        = allVideos.count v) ∧
    (∀ w₁ w₂, w₁ < sc → w₂ < sc →
      (shardListBy VideoRef.key allVideos w₁ sc).length
        ≤ (shardListBy VideoRef.key allVideos w₂ sc).length + 1) := by
  refine ⟨fun w hw => ?_,
    fun v => shardListBy_count_sum VideoRef.key allVideos sc hsc v,
    fun w₁ w₂ h₁ h₂ => ?_⟩
  · unfold assign assignBy
    rw [if_neg (Nat.not_le.mpr hw)]
  · rw [shardListBy_length VideoRef.key allVideos w₁ sc h₁,
      shardListBy_length VideoRef.key allVideos w₂ sc h₂]
    split_ifs <;> omega

theorem div_rate_le_iff (rate : ℚ) (hrate : 0 < rate) (i : ℤ) (t : ℚ) :
    ((i : ℚ) / rate ≤ t) ↔ i ≤ ⌊t * rate⌋ := by
  rw [div_le_iff₀ hrate, Int.le_floor]

theorem sampleFrom_length_eq (rate : ℚ) (hrate : 0 < rate) :
    ∀ l : List DecodedFrame,
      List.Sorted (fun a b => a.timestamp ≤ b.timestamp) l →
      ∀ i : ℤ,
        (sampleFrom rate l i).length
          = ((l.map (frameFloor rate)).toFinset.filter
              (fun m => i ≤ m)).card := by
  intro l
  induction l with
  | nil => intro _ i; simp [sampleFrom]
  | cons f rest ih =>
    intro hsort i
    rcases List.sorted_cons.mp hsort with ⟨hf, hrest⟩
    have hmono : ∀ m ∈ (rest.map (frameFloor rate)).toFinset,
        frameFloor rate f ≤ m := by
      intro m hm
      rcases List.mem_map.mp (List.mem_toFinset.mp hm) with ⟨g, hg, rfl⟩
      exact Int.floor_le_floor
        (mul_le_mul_of_nonneg_right (hf g hg) (le_of_lt hrate))
    rw [List.map_cons, List.toFinset_cons, Finset.filter_insert]
    by_cases hcond : (i : ℚ) / rate ≤ f.timestamp
    · have hi : i ≤ frameFloor rate f :=
        (div_rate_le_iff rate hrate i f.timestamp).mp hcond
      have hl : sampleFrom rate (f :: rest) i
          = f :: sampleFrom rate rest (⌊f.timestamp * rate⌋ + 1) := by
        rw [sampleFrom, if_pos hcond]
      rw [hl, List.length_cons,
        ih hrest (⌊f.timestamp * rate⌋ + 1), if_pos hi]
      have hfull : (rest.map (frameFloor rate)).toFinset.filter
            (fun m => i ≤ m)
          = (rest.map (frameFloor rate)).toFinset :=
        Finset.filter_true_of_mem (fun m hm => le_trans hi (hmono m hm))
      have herase : (rest.map (frameFloor rate)).toFinset.filter
            (fun m => ⌊f.timestamp * rate⌋ + 1 ≤ m)
          = (rest.map (frameFloor rate)).toFinset.erase (frameFloor rate f) := by
        ext m
        simp only [Finset.mem_filter, Finset.mem_erase]
        constructor
        · rintro ⟨hm, hx1⟩
          refine ⟨?_, hm⟩
          unfold frameFloor
          omega
        · rintro ⟨hne, hm⟩
          have hxm := hmono m hm
          refine ⟨hm, ?_⟩
          unfold frameFloor at hne hxm
          omega
      have hins : insert (frameFloor rate f)
            ((rest.map (frameFloor rate)).toFinset)
          = insert (frameFloor rate f)
              ((rest.map (frameFloor rate)).toFinset.erase
                (frameFloor rate f)) := by
        ext m
        simp only [Finset.mem_insert, Finset.mem_erase]
        constructor
        · rintro (h | h)
          · exact Or.inl h
          · by_cases hmx : m = frameFloor rate f
            · exact Or.inl hmx
            · exact Or.inr ⟨hmx, h⟩
        · rintro (h | ⟨_, h⟩)
          · exact Or.inl h
          · exact Or.inr h
      rw [hfull, herase, hins,
        Finset.card_insert_of_not_mem (Finset.not_mem_erase _ _)]
    · have hi : ¬ i ≤ frameFloor rate f := fun h =>
        hcond ((div_rate_le_iff rate hrate i f.timestamp).mpr h)
      have hl : sampleFrom rate (f :: rest) i = sampleFrom rate rest i := by
        rw [sampleFrom, if_neg hcond]
      rw [hl, ih hrest i, if_neg hi]

theorem sampleFrom_head_retained (rate : ℚ) (f : DecodedFrame)
    (rest : List DecodedFrame) (hf : 0 ≤ f.timestamp) :
    sampleFrom rate (f :: rest) 0
      = f :: sampleFrom rate rest (⌊f.timestamp * rate⌋ + 1) := by
  have h0 : ((0 : ℤ) : ℚ) / rate ≤ f.timestamp := by
    rw [Int.cast_zero, zero_div]
    exact hf
  rw [sampleFrom, if_pos h0]

theorem syntheticFrames_sorted (n fps : Nat) (hfps : 0 < fps) :
    List.Sorted (fun a b : DecodedFrame => a.timestamp ≤ b.timestamp)
      (syntheticFrames n fps) := by
  have hfpsQ : (0 : ℚ) < (fps : ℚ) := by exact_mod_cast hfps
  unfold syntheticFrames
  refine List.Pairwise.map _ ?_ (List.pairwise_le_range n)
  intro a b hab
  show (a : ℚ) / (fps : ℚ) ≤ (b : ℚ) / (fps : ℚ)
  gcongr


theorem synthetic_floor_map (R : ℚ) (fps n : Nat) :
    (syntheticFrames n fps).map (frameFloor R)
      = (List.range n).map (fun j : ℕ => ⌊((j : ℚ) / (fps : ℚ)) * R⌋) := by
  unfold syntheticFrames
  rw [List.map_map]
  rfl

theorem synthetic_floor_toFinset (R : ℚ) (fps n : Nat) (hR : 0 < R)
    (hfps : 0 < fps) (hRfps : R ≤ (fps : ℚ)) (_hn : 1 ≤ n) :
    ((syntheticFrames n fps).map (frameFloor R)).toFinset
      = Finset.Icc 0 ⌊(((n : ℚ) - 1) / (fps : ℚ)) * R⌋ := by
  have hfpsQ : (0 : ℚ) < (fps : ℚ) := by exact_mod_cast hfps
  rw [synthetic_floor_map]
  ext m
  simp only [List.mem_toFinset, List.mem_map, List.mem_range, Finset.mem_Icc]
  constructor
  · rintro ⟨j, hj, rfl⟩
    constructor
    · exact Int.floor_nonneg.mpr
        (mul_nonneg (div_nonneg (Nat.cast_nonneg j) (le_of_lt hfpsQ))
          (le_of_lt hR))
    · apply Int.floor_le_floor
      have hjn : (j : ℚ) ≤ (n : ℚ) - 1 := by
        have : (j : ℚ) + 1 ≤ (n : ℚ) := by exact_mod_cast hj
        linarith
      gcongr
  · rintro ⟨hm0, hmM⟩
    have hmQ : (0 : ℚ) ≤ (m : ℚ) := by exact_mod_cast hm0
    have hceil0 : 0 ≤ ⌈(m : ℚ) * (fps : ℚ) / R⌉ :=
      Int.ceil_nonneg
        (div_nonneg (mul_nonneg hmQ (le_of_lt hfpsQ)) (le_of_lt hR))
    have hmD : (m : ℚ) ≤ (((n : ℚ) - 1) / (fps : ℚ)) * R := Int.le_floor.mp hmM
    have hstep : (m : ℚ) * (fps : ℚ) / R ≤ (n : ℚ) - 1 := by
      rw [div_le_iff₀ hR]
      have h1 : (m : ℚ) * (fps : ℚ)
          ≤ ((((n : ℚ) - 1) / (fps : ℚ)) * R) * (fps : ℚ) :=
        mul_le_mul_of_nonneg_right hmD (le_of_lt hfpsQ)
      have h2 : ((((n : ℚ) - 1) / (fps : ℚ)) * R) * (fps : ℚ)
          = ((n : ℚ) - 1) * R := by
        field_simp
      linarith
    have hjZ : ⌈(m : ℚ) * (fps : ℚ) / R⌉ ≤ (n : ℤ) - 1 := by
      rw [Int.ceil_le]
      push_cast
      exact hstep
    have htn : ((⌈(m : ℚ) * (fps : ℚ) / R⌉.toNat : ℕ) : ℤ)
        = ⌈(m : ℚ) * (fps : ℚ) / R⌉ := Int.toNat_of_nonneg hceil0
    have hjn : ⌈(m : ℚ) * (fps : ℚ) / R⌉.toNat < n := by omega
    refine ⟨(⌈(m : ℚ) * (fps : ℚ) / R⌉).toNat, hjn, ?_⟩
    have hjq : (((⌈(m : ℚ) * (fps : ℚ) / R⌉).toNat : ℕ) : ℚ)
        = ((⌈(m : ℚ) * (fps : ℚ) / R⌉ : ℤ) : ℚ) := by
      exact_mod_cast htn
    rw [hjq]
    rw [Int.floor_eq_iff]
    constructor
    · have hlow : (m : ℚ) * (fps : ℚ) / R
          ≤ ((⌈(m : ℚ) * (fps : ℚ) / R⌉ : ℤ) : ℚ) := Int.le_ceil _
      rw [div_mul_eq_mul_div, le_div_iff₀ hfpsQ]
      rw [div_le_iff₀ hR] at hlow
      linarith
    · have hup : ((⌈(m : ℚ) * (fps : ℚ) / R⌉ : ℤ) : ℚ)
          < (m : ℚ) * (fps : ℚ) / R + 1 := Int.ceil_lt_add_one _
      have hRfps1 : R / (fps : ℚ) ≤ 1 := (div_le_one hfpsQ).mpr hRfps
      rw [div_mul_eq_mul_div, div_lt_iff₀ hfpsQ]
      have h3 : ((m : ℚ) * (fps : ℚ) / R + 1) * R = (m : ℚ) * (fps : ℚ) + R := by
        field_simp
      have h4 : ((⌈(m : ℚ) * (fps : ℚ) / R⌉ : ℤ) : ℚ) * R
          < (m : ℚ) * (fps : ℚ) + R :=
        lt_of_lt_of_le
          (mul_lt_mul_of_pos_right hup hR) (le_of_eq h3)
      have h5 : (m : ℚ) * (fps : ℚ) + R ≤ ((m : ℚ) + 1) * (fps : ℚ) := by
        have : (m : ℚ) * (fps : ℚ) + R ≤ (m : ℚ) * (fps : ℚ) + (fps : ℚ) := by
          linarith
        linarith [this]
      calc ((⌈(m : ℚ) * (fps : ℚ) / R⌉ : ℤ) : ℚ) * R
          < (m : ℚ) * (fps : ℚ) + R := h4
        _ ≤ ((m : ℚ) + 1) * (fps : ℚ) := h5
        _ = (((m : ℤ) : ℚ) + 1) * (fps : ℚ) := by norm_num

theorem synthetic_retained_length (R : ℚ) (fps n : Nat) (hR : 0 < R)
    (hfps : 0 < fps) (hRfps : R ≤ (fps : ℚ)) (hn : 1 ≤ n) :
    (sampleFrom R (syntheticFrames n fps) 0).length
      = (⌊(((n : ℚ) - 1) / (fps : ℚ)) * R⌋).toNat + 1 := by
  have hfpsQ : (0 : ℚ) < (fps : ℚ) := by exact_mod_cast hfps
  have hM : 0 ≤ ⌊(((n : ℚ) - 1) / (fps : ℚ)) * R⌋ := by
    apply Int.floor_nonneg.mpr
    apply mul_nonneg _ (le_of_lt hR)
    apply div_nonneg _ (le_of_lt hfpsQ)
    have : (1 : ℚ) ≤ (n : ℚ) := by exact_mod_cast hn
    linarith
  rw [sampleFrom_length_eq R hR (syntheticFrames n fps)
      (syntheticFrames_sorted n fps hfps) 0,
    synthetic_floor_toFinset R fps n hR hfps hRfps hn,
    Finset.filter_true_of_mem (fun m hm => (Finset.mem_Icc.mp hm).1),
    Int.card_Icc]
  omega

/-- C3 (amended): with rate `R > 0`, for an evenly spaced decode sequence at
`fps ≥ R` frames per second with duration `D = last timestamp > 0`, the sampler
retains exactly `⌊D*R⌋ + 1` frames — hence `⌈D*R⌉` or `⌊D*R⌋ + 1` — and never
zero; and for every decode sequence whose first frame has a nonnegative
timestamp the first frame is retained (in particular when `D < 1/R`). -/
theorem sampler_rate_pos_boundary_count (R : ℚ) (fps n : Nat) (hR : 0 < R)
    (hfps : 0 < fps) (hRfps : R ≤ (fps : ℚ)) (hn : 2 ≤ n) :
    0 < ((n : ℚ) - 1) / (fps : ℚ) ∧
    (retainedFrames ⟨R⟩ (syntheticFrames n fps)).length
      = (⌊(((n : ℚ) - 1) / (fps : ℚ)) * R⌋).toNat + 1 ∧
    ((retainedFrames ⟨R⟩ (syntheticFrames n fps)).length
        = (⌈(((n : ℚ) - 1) / (fps : ℚ)) * R⌉).toNat ∨
      (retainedFrames ⟨R⟩ (syntheticFrames n fps)).length
        = (⌊(((n : ℚ) - 1) / (fps : ℚ)) * R⌋).toNat + 1) ∧
    0 < (retainedFrames ⟨R⟩ (syntheticFrames n fps)).length ∧
    (∀ (f : DecodedFrame) (rest : List DecodedFrame), 0 ≤ f.timestamp →
      (retainedFrames ⟨R⟩ (f :: rest)).head? = some f) := by
  have hfpsQ : (0 : ℚ) < (fps : ℚ) := by exact_mod_cast hfps
  have hRne : (SamplingPolicy.mk R).rate ≠ 0 := ne_of_gt hR
  have hrw : ∀ l : List DecodedFrame,
      retainedFrames ⟨R⟩ l = sampleFrom R l 0 := by
    intro l
    unfold retainedFrames
    rw [if_neg hRne]
  have hlen : (retainedFrames ⟨R⟩ (syntheticFrames n fps)).length
      = (⌊(((n : ℚ) - 1) / (fps : ℚ)) * R⌋).toNat + 1 := by
    rw [hrw]
    exact synthetic_retained_length R fps n hR hfps hRfps (by omega)
  refine ⟨?_, hlen, Or.inr hlen, by omega, ?_⟩
  · apply div_pos _ hfpsQ
    have : (2 : ℚ) ≤ (n : ℚ) := by exact_mod_cast hn
    linarith
  · intro f rest hf
    rw [hrw, sampleFrom_head_retained R f rest hf]
    rfl

/-- Witness for C3 (amended) at rate 1 over a four-frame sequence at 2 fps. -/
theorem sampler_rate_pos_boundary_count_witness :
    (0 : ℚ) < 1 ∧ 0 < 2 ∧ (1 : ℚ) ≤ ((2 : ℕ) : ℚ) ∧ 2 ≤ 4 ∧
    (0 < (((4 : ℕ) : ℚ) - 1) / ((2 : ℕ) : ℚ) ∧
      (retainedFrames ⟨1⟩ (syntheticFrames 4 2)).length
        = (⌊((((4 : ℕ) : ℚ) - 1) / ((2 : ℕ) : ℚ)) * 1⌋).toNat + 1 ∧
      ((retainedFrames ⟨1⟩ (syntheticFrames 4 2)).length
          = (⌈((((4 : ℕ) : ℚ) - 1) / ((2 : ℕ) : ℚ)) * 1⌉).toNat ∨
        (retainedFrames ⟨1⟩ (syntheticFrames 4 2)).length
          = (⌊((((4 : ℕ) : ℚ) - 1) / ((2 : ℕ) : ℚ)) * 1⌋).toNat + 1) ∧
      0 < (retainedFrames ⟨1⟩ (syntheticFrames 4 2)).length ∧
      (∀ (f : DecodedFrame) (rest : List DecodedFrame), 0 ≤ f.timestamp →
        (retainedFrames ⟨1⟩ (f :: rest)).head? = some f)) :=
  ⟨by norm_num, by norm_num, by norm_num, by norm_num,
    sampler_rate_pos_boundary_count 1 2 4 (by norm_num) (by norm_num)
      (by norm_num) (by norm_num)⟩

/-- Counterexample to C3 as stated: the sparse decode sequence with timestamps
0 and 10 seconds (duration `D = 10`) sampled at rate `R = 1` retains 2 frames,
which is neither `⌈D*R⌉ = 10` nor `⌊D*R⌋ + 1 = 11`. -/
theorem sampler_count_claim_counterexample :
    (retainedFrames ⟨1⟩ [⟨0, 0, []⟩, ⟨1, 10, []⟩]).length = 2 ∧
    (retainedFrames ⟨1⟩ [⟨0, 0, []⟩, ⟨1, 10, []⟩]).length
        ≠ (⌈(10 : ℚ) * 1⌉).toNat ∧
    (retainedFrames ⟨1⟩ [⟨0, 0, []⟩, ⟨1, 10, []⟩]).length
        ≠ (⌊(10 : ℚ) * 1⌋).toNat + 1 := by
  have h : (retainedFrames ⟨1⟩ [⟨0, 0, []⟩, ⟨1, 10, []⟩]).length = 2 := by
    norm_num [retainedFrames, sampleFrom]
  refine ⟨h, ?_, ?_⟩ <;> rw [h] <;> norm_num <;> decide

/-- Witness for C1 at a concrete three-video listing with two shards. -/
theorem shard_assignment_partition_witness :
    0 < 2 ∧
    ((∀ w, w < 2 →
        assign [⟨"a", 1, "a"⟩, ⟨"b", 1, "b"⟩, ⟨"c", 1, "c"⟩] w 2
          = Except.ok (shardListBy VideoRef.key
              [⟨"a", 1, "a"⟩, ⟨"b", 1, "b"⟩, ⟨"c", 1, "c"⟩] w 2)) ∧
      (∀ v : VideoRef,
        (∑ w ∈ Finset.range 2,
            (shardListBy VideoRef.key
              [⟨"a", 1, "a"⟩, ⟨"b", 1, "b"⟩, ⟨"c", 1, "c"⟩] w 2).count v)
          = ([⟨"a", 1, "a"⟩, ⟨"b", 1, "b"⟩, ⟨"c", 1, "c"⟩] :
              List VideoRef).count v) ∧
      (∀ w₁ w₂, w₁ < 2 → w₂ < 2 →
        (shardListBy VideoRef.key
            [⟨"a", 1, "a"⟩, ⟨"b", 1, "b"⟩, ⟨"c", 1, "c"⟩] w₁ 2).length
          ≤ (shardListBy VideoRef.key
              [⟨"a", 1, "a"⟩, ⟨"b", 1, "b"⟩, ⟨"c", 1, "c"⟩] w₂ 2).length
              + 1)) :=
  ⟨by decide,
    shard_assignment_partition
      [⟨"a", 1, "a"⟩, ⟨"b", 1, "b"⟩, ⟨"c", 1, "c"⟩] 2 (by decide)⟩

end FrameExtract
